import Mathlib

/-!
Formal model of `app/utils/images.py`: the uploads path resolver
(`local_upload_path_from_url`), the containment guard (`_is_subpath`) and the
batch deleter (`delete_local_uploads`).

Modelling conventions:
* Python strings are lists of characters (`Str`).
* Filesystem paths are absolute POSIX paths, represented by their list of
  segments after the root (`PyPath`), mirroring `pathlib.PurePosixPath.parts`.
* `Path.resolve()` is modelled on a filesystem without symbolic links as
  lexical elimination of `.` and `..` segments; the possibility that
  `resolve()` raises is modelled separately by an abstract canonicalizer
  returning `Option` (`_is_subpath_fs`).
* The filesystem state is the list of existing paths; `p.unlink()` failures
  (permissions, locks) are modelled by a predicate `fail` on paths, fixed for
  the duration of a run (no interleaving external changes).
* Python values that may not be strings are `PyObj`.
-/

namespace Images

/-- Python strings, modelled as lists of characters. -/
abbrev Str := List Char

/-- The characters removed by Python `str.strip()` (ASCII whitespace). -/
def pyIsSpace (c : Char) : Bool :=
  c = ' ' || c = '\t' || c = '\n' || c = '\r' || c = '\x0b' || c = '\x0c'

/-- Python `s.strip()`: remove leading and trailing whitespace. -/
def pyStrip (s : Str) : Str :=
  ((s.dropWhile pyIsSpace).reverse.dropWhile pyIsSpace).reverse

/-- Python `s.removeprefix(p)` (PEP 616): drop `p` when it is a prefix of `s`. -/
def removePre (s p : Str) : Str :=
  if p.isPrefixOf s then s.drop p.length else s

/-- Python `s.replace("\\", "/")`: replace every backslash by a forward slash. -/
def replaceBackslashes (s : Str) : Str :=
  s.map (fun c => if c = '\\' then '/' else c)

/-- Model of `_strip_slashes(s)`, i.e. `s.lstrip("/\\")`: remove leading slash and
backslash characters. -/
def _strip_slashes (s : Str) : Str :=
  s.dropWhile (fun c => c = '/' || c = '\\')

/-- The literal prefix `"/uploads/"` tested by the resolver. -/
def uploadsMarker : Str := "/uploads/".toList

/-- An absolute POSIX path: the list of path segments after the root,
mirroring `pathlib.PurePosixPath.parts` (without the leading `/`). -/
structure PyPath where
  segments : List Str
deriving DecidableEq, Repr

/-- Split a raw string at `/` separators (inverse of joining with `/`). -/
def splitSlash : Str → List Str
  | [] => [[]]
  | c :: rest =>
    match splitSlash rest with
    | [] => [[c]]
    | s :: ss => if c = '/' then [] :: s :: ss else (c :: s) :: ss

/-- Model of the `pathlib` parsing of a path string into parts: split at `/`, dropping
empty components and single-dot components (as `PurePosixPath` does). -/
def splitSegments (s : Str) : List Str :=
  (splitSlash s).filter (fun t => decide (t ≠ [] ∧ t ≠ ['.']))

/-- Model of `Path.__truediv__` (the `/` operator): joining a string onto a path.
A string starting with `/` is absolute and replaces the left operand. -/
def pathJoin (p : PyPath) (s : Str) : PyPath :=
  match s with
  | '/' :: _ => ⟨splitSegments s⟩
  | _ => ⟨p.segments ++ splitSegments s⟩

/-- One step of the lexical `.` / `..` elimination performed by
`Path.resolve()`: `..` removes the last accumulated segment (staying at the
root when there is none), `.` is dropped. -/
def normStep (acc : List Str) (seg : Str) : List Str :=
  if seg = ['.'] then acc
  else if seg = ['.', '.'] then acc.dropLast
  else acc ++ [seg]

/-- Model of `Path.resolve()` on a filesystem without symbolic links: lexical
normalization of the segments. -/
def resolvePath (p : PyPath) : PyPath :=
  ⟨p.segments.foldl normStep []⟩

/-- Helper for `str(p)`: join segments with `/` separators. -/
def joinSegs : List Str → Str
  | [] => []
  | [a] => a
  | a :: b :: rest => a ++ '/' :: joinSegs (b :: rest)

/-- Model of `str(p)` for an absolute `PurePosixPath`: a leading slash followed by the
slash-joined segments. -/
def pathStr (p : PyPath) : Str := '/' :: joinSegs p.segments

/-- Model of `BASE_DIR = Path(__file__).resolve().parents[2]`: the deployment-dependent
project root, an already-canonical absolute directory, modelled concretely. -/
def BASE_DIR : PyPath := ⟨["MAIN_DIP-M".toList, "API".toList]⟩

/-- Model of `DATA_DIR = BASE_DIR / "data"`. -/
def DATA_DIR : PyPath := pathJoin BASE_DIR "data".toList

/-- Model of `UPLOADS_DIR = DATA_DIR / "uploads"`. -/
def UPLOADS_DIR : PyPath := pathJoin DATA_DIR "uploads".toList

/-- Model of `_is_subpath(p, parent)`: `p.resolve().relative_to(parent.resolve())`
succeeds exactly when the parts of resolved `parent` are a prefix of the parts
of resolved `p` (equality included); the `except` branch returns `False`. -/
def _is_subpath (p parent : PyPath) : Bool :=
  (resolvePath parent).segments.isPrefixOf (resolvePath p).segments

/-- Variant of `_is_subpath` over an abstract canonicalizer that may fail (modelling
`Path.resolve()` raising `OSError`): any canonicalization failure hits the
`except` branch, which returns `False` (fail closed). -/
def _is_subpath_fs (canon : PyPath → Option PyPath) (p parent : PyPath) : Bool :=
  match canon p, canon parent with
  | some cp, some cparent => cparent.segments.isPrefixOf cp.segments
  | _, _ => false

/-- The fields of `urllib.parse.urlparse` read by this module. -/
structure UrlParts where
  scheme : Str
  netloc : Str
  path : Str
deriving DecidableEq, Repr

/-- Characters allowed in a URL scheme (letters, digits, `+`, `-`, `.`). -/
def isSchemeChar (c : Char) : Bool :=
  c.isAlpha || c.isDigit || c = '+' || c = '-' || c = '.'

/-- Whether a string starts with an ASCII letter (scheme recognition). -/
def firstAlpha : Str → Bool
  | [] => false
  | c :: _ => c.isAlpha

/-- Everything before the first occurrence of `c` (the whole string when `c`
does not occur). -/
def beforeChar (c : Char) (s : Str) : Str :=
  s.takeWhile (fun x => !(x = c))

/-- Characters ending the netloc component of a URL. -/
def netlocStop (c : Char) : Bool := c = '/' || c = '?' || c = '#'

/-- Model of `urllib.parse.urlparse`, restricted to the fields this module
reads: removes unsafe bytes (tab, CR, LF), recognizes a scheme prefix, splits
off `//netloc`, and cuts the fragment and query off the path.  Raises
(`Except.error`) on a netloc with unbalanced square brackets, as the Python
implementation raises `ValueError` for an invalid IPv6 URL. -/
def urlparse (u : Str) : Except Unit UrlParts :=
  let url := u.filter (fun c => !(c = '\t' || c = '\r' || c = '\n'))
  let schemeRest : Str × Str :=
    match url.findIdx? (fun c => c = ':') with
    | some i =>
      if decide (0 < i) && (url.take i).all isSchemeChar && firstAlpha url then
        ((url.take i).map Char.toLower, url.drop (i + 1))
      else ([], url)
    | none => ([], url)
  let rest := schemeRest.2
  let netlocRest : Str × Str :=
    match rest with
    | '/' :: '/' :: after =>
      (after.takeWhile (fun c => !(netlocStop c)), after.dropWhile (fun c => !(netlocStop c)))
    | _ => ([], rest)
  let netloc := netlocRest.1
  if (netloc.contains '[') != (netloc.contains ']') then Except.error ()
  else
    let path := beforeChar '?' (beforeChar '#' netlocRest.2)
    Except.ok ⟨schemeRest.1, netloc, path⟩

/-- Whether `urlparse` succeeds on `u` (the `try` block runs to completion). -/
def urlparseOk (u : Str) : Bool :=
  match urlparse u with
  | Except.ok _ => true
  | Except.error _ => false

/-- Whether the parsed, backslash-normalized path component of `u` starts with
`"/uploads/"` (the test in the absolute-URL branch of the resolver); `false`
when parsing raises. -/
def parsedPathHit (u : Str) : Bool :=
  match urlparse u with
  | Except.ok uu => uploadsMarker.isPrefixOf (replaceBackslashes uu.path)
  | Except.error _ => false

/-- The shared tail of both resolver branches: join the extracted relative
remainder onto `UPLOADS_DIR` and return it only if `_is_subpath` accepts. -/
def guardedJoin (relative_path : Str) : Option PyPath :=
  let p := pathJoin UPLOADS_DIR relative_path
  if _is_subpath p UPLOADS_DIR then some p else none

/-- Model of `local_upload_path_from_url(url)` for string input: the relative
`/uploads/...` branch, then the `urlparse` branch with its `try`/`except`,
each guarded by `_is_subpath`; every other input yields `None`. -/
def local_upload_path_from_url (url : Str) : Option PyPath :=
  if url = [] then none
  else
    let u := pyStrip url
    if uploadsMarker.isPrefixOf u then
      guardedJoin (_strip_slashes (removePre u uploadsMarker))
    else
      match urlparse u with
      | Except.error _ => none
      | Except.ok uu =>
        let path := replaceBackslashes uu.path
        if uploadsMarker.isPrefixOf path then
          guardedJoin (_strip_slashes (removePre path uploadsMarker))
        else none

/-- A Python value that may or may not be a string (`isinstance(x, str)`). -/
inductive PyObj where
  | str (s : Str)
  | other (tag : Nat)
deriving DecidableEq, Repr

/-- Model of `local_upload_path_from_url` on an arbitrary Python value: the
`not isinstance(url, str)` test sends every non-string to `None`. -/
def local_upload_path_from_url_obj : PyObj → Option PyPath
  | PyObj.str s => local_upload_path_from_url s
  | PyObj.other _ => none

/-- Deleting a path from the filesystem (`p.unlink()`): the path no longer
exists afterwards. -/
def removeFile (fs : List PyPath) (p : PyPath) : List PyPath :=
  fs.filter (fun q => decide (q ≠ p))

/-- The evolving state of one `delete_local_uploads` run: the filesystem (the
list of existing paths) and the accumulated `removed` and `candidates` lists,
kept as paths (the returned lists are their `str(p)` images). -/
structure RunState where
  fs : List PyPath
  removedP : List PyPath
  candidatesP : List PyPath
deriving DecidableEq, Repr

/-- Model of `set([x for x in urls if isinstance(x, str) and x.strip()])`: the
deduplicated non-blank string entries (iteration order is unspecified in
Python; the model fixes one order). -/
def uniqueUrls (urls : List PyObj) : List Str :=
  (urls.filterMap (fun x =>
    match x with
    | PyObj.str s => if pyStrip s = [] then none else some s
    | PyObj.other _ => none)).dedup

/-- One iteration of the loop body of `delete_local_uploads`: resolve, skip on
`None`, always record the candidate, and delete when the file exists and the
unlink does not fail (`fail p = true` models `p.unlink()` raising, which the
`except` swallows, leaving the file in place and off the `removed` list). -/
def deleteStep (fail : PyPath → Bool) (st : RunState) (u : Str) : RunState :=
  match local_upload_path_from_url u with
  | none => st
  | some p =>
    if p ∈ st.fs ∧ fail p = false then
      ⟨removeFile st.fs p, st.removedP ++ [p], st.candidatesP ++ [p]⟩
    else
      ⟨st.fs, st.removedP, st.candidatesP ++ [p]⟩

/-- The whole loop of `delete_local_uploads` over the deduplicated URLs. -/
def delete_run (fail : PyPath → Bool) (fs : List PyPath) (urls : List PyObj) : RunState :=
  (uniqueUrls urls).foldl (deleteStep fail) ⟨fs, [], []⟩

/-- Model of `delete_local_uploads(urls)` in a world where `fs` lists the existing
files and `fail` tells which unlinks raise: the returned
`(removed, candidates)` pair of path strings. -/
def delete_local_uploads (fail : PyPath → Bool) (fs : List PyPath) (urls : List PyObj) :
    List Str × List Str :=
  let r := delete_run fail fs urls
  (r.removedP.map pathStr, r.candidatesP.map pathStr)

/-- A well-formed path segment: nonempty and containing no `/`. -/
def goodSeg (t : Str) : Prop := t ≠ [] ∧ '/' ∉ t

/-- A path all of whose segments are well formed (every path built by the
resolver is of this shape, making `str(p)` injective on them). -/
def GoodPath (p : PyPath) : Prop := ∀ t ∈ p.segments, goodSeg t

/-! ### Basic bridging lemmas -/

theorem prefixOf_true_iff {α : Type} [BEq α] [LawfulBEq α] (l₁ l₂ : List α) :
    l₁.isPrefixOf l₂ = true ↔ l₁ <+: l₂ :=
  List.isPrefixOf_iff_prefix

theorem marker_prefixOf_append (rest : Str) :
    uploadsMarker.isPrefixOf (uploadsMarker ++ rest) = true :=
  (prefixOf_true_iff _ _).mpr (List.prefix_append _ _)

theorem removePre_append (p rest : Str) : removePre (p ++ rest) p = rest := by
  unfold removePre
  rw [if_pos ((prefixOf_true_iff _ _).mpr (List.prefix_append _ _))]
  simp

/-! ### Resolver characterization -/

theorem guardedJoin_eq_some (r : Str) (p : PyPath) (h : guardedJoin r = some p) :
    _is_subpath p UPLOADS_DIR = true ∧ p = pathJoin UPLOADS_DIR r := by
  simp only [guardedJoin] at h
  split at h
  · cases Option.some.inj h
    exact ⟨‹_›, rfl⟩
  · cases h

theorem resolver_some_subpath (url : Str) (p : PyPath)
    (h : local_upload_path_from_url url = some p) : _is_subpath p UPLOADS_DIR = true := by
  simp only [local_upload_path_from_url] at h
  split at h
  · cases h
  · split at h
    · exact (guardedJoin_eq_some _ _ h).1
    · split at h
      · cases h
      · split at h
        · exact (guardedJoin_eq_some _ _ h).1
        · cases h

theorem pyStrip_nil : pyStrip [] = [] := rfl

theorem resolver_rel (url rest : Str) (h : pyStrip url = uploadsMarker ++ rest) :
    local_upload_path_from_url url = guardedJoin (_strip_slashes rest) := by
  have hne : url ≠ [] := by
    intro e
    subst e
    have h' : ([] : Str) = uploadsMarker ++ rest := h
    have hlen : (uploadsMarker ++ rest).length = 0 := by rw [← h']; rfl
    have h9 : uploadsMarker.length = 9 := by decide
    rw [List.length_append, h9] at hlen
    omega
  unfold local_upload_path_from_url
  rw [if_neg hne]
  simp only [h, marker_prefixOf_append, if_true, removePre_append]

/-! ### Leading-slash and segment facts -/

theorem strip_slashes_no_leading (s : Str) : ∀ t, _strip_slashes s ≠ '/' :: t := by
  induction s with
  | nil => intro t h; cases h
  | cons c cs ih =>
    intro t h
    unfold _strip_slashes at h
    rw [List.dropWhile_cons] at h
    split at h
    · exact ih t h
    · rename_i hcond
      cases h
      simp at hcond

theorem pathJoin_strip (p : PyPath) (s : Str) :
    pathJoin p (_strip_slashes s) = ⟨p.segments ++ splitSegments (_strip_slashes s)⟩ := by
  unfold pathJoin
  split
  · rename_i t heq
    exact absurd heq (strip_slashes_no_leading s t)
  · rfl

theorem splitSlash_ne_nil (s : Str) : splitSlash s ≠ [] := by
  cases s with
  | nil => simp [splitSlash]
  | cons c cs =>
    unfold splitSlash
    split
    · simp
    · split <;> simp

theorem splitSlash_no_slash (s : Str) : ∀ t ∈ splitSlash s, '/' ∉ t := by
  induction s with
  | nil =>
    intro t ht
    simp [splitSlash] at ht
    subst ht
    simp
  | cons c cs ih =>
    intro t ht
    cases hsp : splitSlash cs with
    | nil => exact absurd hsp (splitSlash_ne_nil cs)
    | cons s0 ss =>
      have heq : splitSlash (c :: cs) = if c = '/' then [] :: s0 :: ss else (c :: s0) :: ss := by
        unfold splitSlash
        rw [hsp]
      rw [heq] at ht
      by_cases hc : c = '/'
      · rw [if_pos hc] at ht
        rcases List.mem_cons.mp ht with h0 | h1
        · subst h0; simp
        · exact ih t (hsp ▸ h1)
      · rw [if_neg hc] at ht
        rcases List.mem_cons.mp ht with h0 | h1
        · subst h0
          intro hmem
          rcases List.mem_cons.mp hmem with h2 | h3
          · exact hc h2.symm
          · exact ih s0 (hsp ▸ List.mem_cons_self s0 ss) h3
        · exact ih t (hsp ▸ List.mem_cons_of_mem s0 h1)

theorem splitSegments_good (s : Str) : ∀ t ∈ splitSegments s, goodSeg t := by
  intro t ht
  unfold splitSegments at ht
  rw [List.mem_filter] at ht
  obtain ⟨hmem, hcond⟩ := ht
  have h2 : t ≠ [] ∧ t ≠ ['.'] := of_decide_eq_true hcond
  exact ⟨h2.1, splitSlash_no_slash s t hmem⟩

theorem splitSegments_no_dot (s : Str) : ['.'] ∉ splitSegments s := by
  intro h
  unfold splitSegments at h
  rw [List.mem_filter] at h
  have h2 : (['.'] : Str) ≠ [] ∧ (['.'] : Str) ≠ ['.'] := of_decide_eq_true h.2
  exact h2.2 rfl

/-! ### Lexical normalization -/

theorem foldl_normStep_clean (segs : List Str) :
    ∀ acc, (∀ t ∈ segs, t ≠ ['.'] ∧ t ≠ ['.', '.']) →
      segs.foldl normStep acc = acc ++ segs := by
  induction segs with
  | nil => intro acc _; simp
  | cons a as ih =>
    intro acc h
    have ha := h a (List.mem_cons_self a as)
    rw [List.foldl_cons,
        show normStep acc a = acc ++ [a] from by unfold normStep; rw [if_neg ha.1, if_neg ha.2],
        ih _ (fun t ht => h t (List.mem_cons_of_mem a ht))]
    simp

theorem uploads_resolve_self : resolvePath UPLOADS_DIR = UPLOADS_DIR := by decide

theorem uploads_good : GoodPath UPLOADS_DIR := by
  unfold GoodPath goodSeg
  decide

theorem guardedJoin_of_no_dotdot (rest : Str)
    (hd : ['.', '.'] ∉ splitSegments (_strip_slashes rest)) :
    guardedJoin (_strip_slashes rest) =
      some ⟨UPLOADS_DIR.segments ++ splitSegments (_strip_slashes rest)⟩ := by
  unfold guardedJoin
  rw [pathJoin_strip]
  have hclean : ∀ t ∈ splitSegments (_strip_slashes rest), t ≠ ['.'] ∧ t ≠ ['.', '.'] := by
    intro t ht
    constructor
    · intro e; subst e; exact splitSegments_no_dot _ ht
    · intro e; subst e; exact hd ht
  have hres : resolvePath ⟨UPLOADS_DIR.segments ++ splitSegments (_strip_slashes rest)⟩ =
      ⟨UPLOADS_DIR.segments ++ splitSegments (_strip_slashes rest)⟩ := by
    unfold resolvePath
    rw [List.foldl_append]
    have h1 : UPLOADS_DIR.segments.foldl normStep [] = UPLOADS_DIR.segments := by decide
    rw [h1, foldl_normStep_clean _ _ hclean]
  have hguard : _is_subpath ⟨UPLOADS_DIR.segments ++ splitSegments (_strip_slashes rest)⟩
      UPLOADS_DIR = true := by
    unfold _is_subpath
    rw [uploads_resolve_self, hres]
    show UPLOADS_DIR.segments.isPrefixOf
      (UPLOADS_DIR.segments ++ splitSegments (_strip_slashes rest)) = true
    exact (prefixOf_true_iff UPLOADS_DIR.segments
      (UPLOADS_DIR.segments ++ splitSegments (_strip_slashes rest))).mpr
      (List.prefix_append _ _)
  rw [if_pos hguard]

/-! ### Resolver output shape -/

theorem resolver_some_shape (url : Str) (p : PyPath)
    (h : local_upload_path_from_url url = some p) : ∃ r, p = pathJoin UPLOADS_DIR r := by
  simp only [local_upload_path_from_url] at h
  split at h
  · cases h
  · split at h
    · exact ⟨_, (guardedJoin_eq_some _ _ h).2⟩
    · split at h
      · cases h
      · split at h
        · exact ⟨_, (guardedJoin_eq_some _ _ h).2⟩
        · cases h

theorem pathJoin_good (p : PyPath) (hp : GoodPath p) (s : Str) : GoodPath (pathJoin p s) := by
  unfold pathJoin
  split
  · intro t ht
    exact splitSegments_good _ t ht
  · intro t ht
    rcases List.mem_append.mp ht with h1 | h1
    · exact hp t h1
    · exact splitSegments_good _ t h1

theorem resolver_good (url : Str) (p : PyPath)
    (h : local_upload_path_from_url url = some p) : GoodPath p := by
  obtain ⟨r, rfl⟩ := resolver_some_shape url p h
  exact pathJoin_good UPLOADS_DIR uploads_good r

/-! ### Filesystem primitives -/

theorem removeFile_subset (fs : List PyPath) (p : PyPath) : removeFile fs p ⊆ fs :=
  fun _ h => (List.mem_filter.mp h).1

theorem not_mem_removeFile (fs : List PyPath) (p : PyPath) : p ∉ removeFile fs p := by
  intro h
  have h2 := (List.mem_filter.mp h).2
  simp at h2

theorem mem_removeFile_of_ne (fs : List PyPath) (p q : PyPath) (hq : q ∈ fs) (hne : q ≠ p) :
    q ∈ removeFile fs p :=
  List.mem_filter.mpr ⟨hq, by simpa using hne⟩

theorem eq_of_mem_not_mem_removeFile {fs : List PyPath} {p q : PyPath}
    (hq : q ∈ fs) (h : q ∉ removeFile fs p) : q = p := by
  by_contra hne
  exact h (mem_removeFile_of_ne fs p q hq hne)

/-! ### Step characterization -/

theorem deleteStep_none (fail : PyPath → Bool) (st : RunState) (u : Str)
    (h : local_upload_path_from_url u = none) : deleteStep fail st u = st := by
  unfold deleteStep
  rw [h]

theorem deleteStep_some_hit (fail : PyPath → Bool) (st : RunState) (u : Str) (p : PyPath)
    (h : local_upload_path_from_url u = some p) (hc : p ∈ st.fs ∧ fail p = false) :
    deleteStep fail st u =
      ⟨removeFile st.fs p, st.removedP ++ [p], st.candidatesP ++ [p]⟩ := by
  unfold deleteStep
  rw [h]
  dsimp only
  rw [if_pos hc]

theorem deleteStep_some_miss (fail : PyPath → Bool) (st : RunState) (u : Str) (p : PyPath)
    (h : local_upload_path_from_url u = some p) (hc : ¬(p ∈ st.fs ∧ fail p = false)) :
    deleteStep fail st u = ⟨st.fs, st.removedP, st.candidatesP ++ [p]⟩ := by
  unfold deleteStep
  rw [h]
  dsimp only
  rw [if_neg hc]

theorem deleteStep_fs_subset (fail : PyPath → Bool) (st : RunState) (u : Str) :
    (deleteStep fail st u).fs ⊆ st.fs := by
  unfold deleteStep
  split
  · exact fun q h => h
  · split
    · exact fun q h => removeFile_subset _ _ h
    · exact fun q h => h

theorem deleteStep_candidates (fail : PyPath → Bool) (st : RunState) (u : Str) (p : PyPath)
    (h : local_upload_path_from_url u = some p) :
    (deleteStep fail st u).candidatesP = st.candidatesP ++ [p] := by
  unfold deleteStep
  rw [h]
  dsimp only
  split <;> rfl

/-! ### Fold invariants -/

theorem run_fs_subset (fail : PyPath → Bool) (us : List Str) :
    ∀ st : RunState, (us.foldl (deleteStep fail) st).fs ⊆ st.fs := by
  induction us with
  | nil => exact fun st q h => h
  | cons v us ih =>
    intro st q h
    exact deleteStep_fs_subset fail st v (ih (deleteStep fail st v) h)

theorem run_removed_subset (fail : PyPath → Bool) (us : List Str) :
    ∀ st : RunState, st.removedP ⊆ st.candidatesP →
      (us.foldl (deleteStep fail) st).removedP ⊆ (us.foldl (deleteStep fail) st).candidatesP := by
  induction us with
  | nil => exact fun st h => h
  | cons v us ih =>
    intro st h
    refine ih _ ?_
    cases hres : local_upload_path_from_url v with
    | none =>
      rw [deleteStep_none fail st v hres]
      exact h
    | some p =>
      by_cases hc : p ∈ st.fs ∧ fail p = false
      · rw [deleteStep_some_hit fail st v p hres hc]
        exact List.append_subset.mpr
          ⟨h.trans (List.subset_append_left _ _), List.subset_append_right _ _⟩
      · rw [deleteStep_some_miss fail st v p hres hc]
        exact h.trans (List.subset_append_left _ _)

theorem run_candidates_congr (fail fail' : PyPath → Bool) (us : List Str) :
    ∀ st st' : RunState, st.candidatesP = st'.candidatesP →
      (us.foldl (deleteStep fail) st).candidatesP =
        (us.foldl (deleteStep fail') st').candidatesP := by
  induction us with
  | nil => exact fun st st' h => h
  | cons v us ih =>
    intro st st' h
    refine ih _ _ ?_
    cases hres : local_upload_path_from_url v with
    | none =>
      rw [deleteStep_none fail st v hres, deleteStep_none fail' st' v hres]
      exact h
    | some p =>
      rw [deleteStep_candidates fail st v p hres, deleteStep_candidates fail' st' v p hres, h]

theorem run_candidates_mono (fail : PyPath → Bool) (us : List Str) :
    ∀ st : RunState, st.candidatesP ⊆ (us.foldl (deleteStep fail) st).candidatesP := by
  induction us with
  | nil => exact fun st q h => h
  | cons v us ih =>
    intro st q h
    refine ih (deleteStep fail st v) ?_
    cases hres : local_upload_path_from_url v with
    | none =>
      rw [deleteStep_none fail st v hres]
      exact h
    | some p =>
      rw [deleteStep_candidates fail st v p hres]
      exact List.mem_append_left _ h

theorem run_candidates_mem (fail : PyPath → Bool) (us : List Str) :
    ∀ st : RunState, ∀ u p, u ∈ us → local_upload_path_from_url u = some p →
      p ∈ (us.foldl (deleteStep fail) st).candidatesP := by
  induction us with
  | nil =>
    intro st u p hu
    cases hu
  | cons v us ih =>
    intro st u p hu hres
    rcases List.mem_cons.mp hu with h0 | h1
    · subst h0
      refine run_candidates_mono fail us (deleteStep fail st u) ?_
      rw [deleteStep_candidates fail st u p hres]
      exact List.mem_append_right _ (List.mem_singleton.mpr rfl)
    · exact ih (deleteStep fail st v) u p h1 hres

theorem run_processed_gone (fail : PyPath → Bool) (us : List Str) :
    ∀ st : RunState, ∀ u p, u ∈ us → local_upload_path_from_url u = some p →
      fail p = false → p ∉ (us.foldl (deleteStep fail) st).fs := by
  induction us with
  | nil =>
    intro st u p hu
    cases hu
  | cons v us ih =>
    intro st u p hu hres hfail
    rcases List.mem_cons.mp hu with h0 | h1
    · subst h0
      intro hmem
      have hstep : p ∉ (deleteStep fail st u).fs := by
        by_cases hin : p ∈ st.fs
        · rw [deleteStep_some_hit fail st u p hres ⟨hin, hfail⟩]
          exact not_mem_removeFile st.fs p
        · rw [deleteStep_some_miss fail st u p hres (fun hc => hin hc.1)]
          exact hin
      exact hstep (run_fs_subset fail us (deleteStep fail st u) hmem)
    · exact ih (deleteStep fail st v) u p h1 hres hfail

theorem run_noop (fail : PyPath → Bool) (us : List Str) :
    ∀ st : RunState,
      (∀ u ∈ us, ∀ p, local_upload_path_from_url u = some p → fail p = true ∨ p ∉ st.fs) →
      (us.foldl (deleteStep fail) st).fs = st.fs ∧
        (us.foldl (deleteStep fail) st).removedP = st.removedP := by
  induction us with
  | nil => exact fun st _ => ⟨rfl, rfl⟩
  | cons v us ih =>
    intro st h
    cases hres : local_upload_path_from_url v with
    | none =>
      rw [List.foldl_cons, deleteStep_none fail st v hres]
      exact ih st (fun u hu => h u (List.mem_cons_of_mem v hu))
    | some p =>
      have hvp := h v (List.mem_cons_self v us) p hres
      have hcond : ¬(p ∈ st.fs ∧ fail p = false) := by
        rcases hvp with h1 | h1
        · intro hc
          exact Bool.noConfusion (h1.symm.trans hc.2)
        · intro hc
          exact h1 hc.1
      rw [List.foldl_cons, deleteStep_some_miss fail st v p hres hcond]
      exact ih ⟨st.fs, st.removedP, st.candidatesP ++ [p]⟩
        (fun u hu p' hp' => h u (List.mem_cons_of_mem v hu) p' hp')

theorem run_deleted_subpath (fail : PyPath → Bool) (us : List Str) :
    ∀ st : RunState, ∀ q, q ∈ st.fs → q ∉ (us.foldl (deleteStep fail) st).fs →
      _is_subpath q UPLOADS_DIR = true := by
  induction us with
  | nil =>
    intro st q h1 h2
    exact absurd h1 h2
  | cons v us ih =>
    intro st q h1 h2
    by_cases hmem : q ∈ (deleteStep fail st v).fs
    · exact ih (deleteStep fail st v) q hmem h2
    · cases hres : local_upload_path_from_url v with
      | none =>
        rw [deleteStep_none fail st v hres] at hmem
        exact absurd h1 hmem
      | some p =>
        by_cases hc : p ∈ st.fs ∧ fail p = false
        · rw [deleteStep_some_hit fail st v p hres hc] at hmem
          have hqp : q = p := eq_of_mem_not_mem_removeFile h1 hmem
          subst hqp
          exact resolver_some_subpath v q hres
        · rw [deleteStep_some_miss fail st v p hres hc] at hmem
          exact absurd h1 hmem

theorem run_removed_inv (fail : PyPath → Bool) (us : List Str) :
    ∀ st : RunState, (∀ p ∈ st.removedP, fail p = false ∧ GoodPath p) →
      ∀ p ∈ (us.foldl (deleteStep fail) st).removedP, fail p = false ∧ GoodPath p := by
  induction us with
  | nil => exact fun st h => h
  | cons v us ih =>
    intro st h
    cases hres : local_upload_path_from_url v with
    | none =>
      rw [List.foldl_cons, deleteStep_none fail st v hres]
      exact ih st h
    | some p =>
      by_cases hc : p ∈ st.fs ∧ fail p = false
      · rw [List.foldl_cons, deleteStep_some_hit fail st v p hres hc]
        refine ih _ ?_
        intro q hq
        rcases List.mem_append.mp hq with hq1 | hq1
        · exact h q hq1
        · rw [List.mem_singleton] at hq1
          subst hq1
          exact ⟨hc.2, resolver_good v q hres⟩
      · rw [List.foldl_cons, deleteStep_some_miss fail st v p hres hc]
        exact ih _ h

theorem run_removed_nodup (fail : PyPath → Bool) (us : List Str) :
    ∀ st : RunState, st.removedP.Nodup → (∀ p ∈ st.removedP, p ∉ st.fs) →
      (us.foldl (deleteStep fail) st).removedP.Nodup := by
  induction us with
  | nil => exact fun st h1 _ => h1
  | cons v us ih =>
    intro st h1 h2
    cases hres : local_upload_path_from_url v with
    | none =>
      rw [List.foldl_cons, deleteStep_none fail st v hres]
      exact ih st h1 h2
    | some p =>
      by_cases hc : p ∈ st.fs ∧ fail p = false
      · rw [List.foldl_cons, deleteStep_some_hit fail st v p hres hc]
        refine ih _ ?_ ?_
        · rw [List.nodup_append]
          refine ⟨h1, List.nodup_singleton p, ?_⟩
          intro a ha hb
          rw [List.mem_singleton] at hb
          subst hb
          exact h2 a ha hc.1
        · intro q hq
          rcases List.mem_append.mp hq with hq1 | hq1
          · intro hmem
            exact h2 q hq1 (removeFile_subset _ _ hmem)
          · rw [List.mem_singleton] at hq1
            subst hq1
            exact not_mem_removeFile st.fs q
      · rw [List.foldl_cons, deleteStep_some_miss fail st v p hres hc]
        exact ih _ h1 h2

/-! ### Injectivity of the string form on well-formed paths -/

theorem append_slash_inj (a : Str) : ∀ (b x y : Str), '/' ∉ a → '/' ∉ b →
    a ++ '/' :: x = b ++ '/' :: y → a = b ∧ x = y := by
  induction a with
  | nil =>
    intro b x y _ hb h
    cases b with
    | nil =>
      simp at h
      exact ⟨rfl, h⟩
    | cons d b' =>
      simp at h
      exfalso
      apply hb
      rw [← h.1]
      exact List.mem_cons_self _ _
  | cons c a' ih =>
    intro b x y ha hb h
    cases b with
    | nil =>
      simp at h
      exfalso
      apply ha
      rw [h.1]
      exact List.mem_cons_self _ _
    | cons d b' =>
      simp only [List.cons_append, List.cons.injEq] at h
      obtain ⟨h1, h2⟩ := h
      have hrec := ih b' x y (fun hm => ha (List.mem_cons_of_mem c hm))
        (fun hm => hb (List.mem_cons_of_mem d hm)) h2
      exact ⟨by rw [h1, hrec.1], hrec.2⟩

theorem joinSegs_inj (l₁ : List Str) : ∀ l₂ : List Str, (∀ t ∈ l₁, goodSeg t) →
    (∀ t ∈ l₂, goodSeg t) → joinSegs l₁ = joinSegs l₂ → l₁ = l₂ := by
  induction l₁ with
  | nil =>
    intro l₂ _ h2 h
    cases l₂ with
    | nil => rfl
    | cons b l₂' =>
      exfalso
      cases l₂' with
      | nil => exact (h2 b (List.mem_cons_self b [])).1 h.symm
      | cons c2 r2 =>
        have hne : b ++ '/' :: joinSegs (c2 :: r2) ≠ [] := by simp
        exact hne h.symm
  | cons a l₁' ih =>
    intro l₂ h1 h2 h
    cases l₂ with
    | nil =>
      exfalso
      cases l₁' with
      | nil => exact (h1 a (List.mem_cons_self a [])).1 h
      | cons c1 r1 =>
        have hne : a ++ '/' :: joinSegs (c1 :: r1) ≠ [] := by simp
        exact hne h
    | cons b l₂' =>
      cases l₁' with
      | nil =>
        cases l₂' with
        | nil =>
          have hab : a = b := h
          rw [hab]
        | cons c2 r2 =>
          exfalso
          have hmem : '/' ∈ a := by
            have h' : a = b ++ '/' :: joinSegs (c2 :: r2) := h
            rw [h']
            exact List.mem_append_right b (List.mem_cons_self _ _)
          exact (h1 a (List.mem_cons_self a [])).2 hmem
      | cons c1 r1 =>
        cases l₂' with
        | nil =>
          exfalso
          have hmem : '/' ∈ b := by
            have h' : a ++ '/' :: joinSegs (c1 :: r1) = b := h
            rw [← h']
            exact List.mem_append_right a (List.mem_cons_self _ _)
          exact (h2 b (List.mem_cons_self b [])).2 hmem
        | cons c2 r2 =>
          have h' : a ++ '/' :: joinSegs (c1 :: r1) = b ++ '/' :: joinSegs (c2 :: r2) := h
          have hsp := append_slash_inj a b (joinSegs (c1 :: r1)) (joinSegs (c2 :: r2))
            (h1 a (List.mem_cons_self a _)).2 (h2 b (List.mem_cons_self b _)).2 h'
          have hrest := ih (c2 :: r2) (fun t ht => h1 t (List.mem_cons_of_mem a ht))
            (fun t ht => h2 t (List.mem_cons_of_mem b ht)) hsp.2
          rw [hsp.1, hrest]

theorem pathStr_inj (p q : PyPath) (hp : GoodPath p) (hq : GoodPath q)
    (h : pathStr p = pathStr q) : p = q := by
  unfold pathStr at h
  have h2 : joinSegs p.segments = joinSegs q.segments := by injection h
  obtain ⟨ps⟩ := p
  obtain ⟨qs⟩ := q
  exact congrArg PyPath.mk (joinSegs_inj ps qs hp hq h2)

/-! ### Deduplication of the input -/

theorem mem_uniqueUrls (urls : List PyObj) (x : Str) :
    x ∈ uniqueUrls urls ↔ PyObj.str x ∈ urls ∧ pyStrip x ≠ [] := by
  unfold uniqueUrls
  rw [List.mem_dedup, List.mem_filterMap]
  constructor
  · rintro ⟨a, ha, hfa⟩
    cases a with
    | str s =>
      dsimp only at hfa
      by_cases hs : pyStrip s = []
      · rw [if_pos hs] at hfa
        cases hfa
      · rw [if_neg hs] at hfa
        obtain rfl := Option.some.inj hfa
        exact ⟨ha, hs⟩
    | other t =>
      cases hfa
  · rintro ⟨ha, hs⟩
    refine ⟨PyObj.str x, ha, ?_⟩
    dsimp only
    rw [if_neg hs]

theorem uniqueUrls_nodup (urls : List PyObj) : (uniqueUrls urls).Nodup :=
  List.nodup_dedup _

/-! ### Assembled facts about the returned string lists -/

theorem delete_removed_nodup (fail : PyPath → Bool) (fs : List PyPath) (urls : List PyObj) :
    ((delete_local_uploads fail fs urls).1).Nodup := by
  have hnd : ((uniqueUrls urls).foldl (deleteStep fail) ⟨fs, [], []⟩).removedP.Nodup :=
    run_removed_nodup fail (uniqueUrls urls) ⟨fs, [], []⟩ List.nodup_nil
      (fun p hp => absurd hp (List.not_mem_nil p))
  have hgood := run_removed_inv fail (uniqueUrls urls) ⟨fs, [], []⟩
    (fun p hp => absurd hp (List.not_mem_nil p))
  show (((uniqueUrls urls).foldl (deleteStep fail) ⟨fs, [], []⟩).removedP.map pathStr).Nodup
  exact List.Nodup.map_on
    (fun x hx y hy hxy => pathStr_inj x y (hgood x hx).2 (hgood y hy).2 hxy) hnd

/-! ### Shared resolver-miss lemma -/

theorem resolver_none_of_miss (url : Str)
    (h1 : uploadsMarker.isPrefixOf (pyStrip url) = false)
    (h2 : parsedPathHit (pyStrip url) = false) :
    local_upload_path_from_url url = none := by
  by_cases he : url = []
  · subst he
    rfl
  · unfold local_upload_path_from_url
    rw [if_neg he]
    dsimp only
    rw [h1, if_neg (by decide : ¬(false = true))]
    unfold parsedPathHit at h2
    cases hp : urlparse (pyStrip url) with
    | error e => rfl
    | ok uu =>
      rw [hp] at h2
      dsimp only at h2
      dsimp only
      rw [h2, if_neg (by decide : ¬(false = true))]

theorem cased_not_marker (cased u : Str) (hlen : cased.length = 9)
    (hne : cased ≠ uploadsMarker) (h : cased.isPrefixOf u = true)
    (hb : uploadsMarker.isPrefixOf u = true) : False := by
  have eA := List.prefix_iff_eq_take.mp ((prefixOf_true_iff _ _).mp h)
  have eB := List.prefix_iff_eq_take.mp ((prefixOf_true_iff _ _).mp hb)
  rw [hlen] at eA
  rw [(by decide : uploadsMarker.length = 9)] at eB
  exact hne (eA.trans eB.symm)

/-! ### Claims -/

/-- C1: whenever `local_upload_path_from_url` returns a path, the canonical
(symlink/segment-resolved) form of that path is equal to or a descendant of
the canonical form of `UPLOADS_DIR`; an input whose joined candidate would
canonicalize outside the root resolves to `None` (e.g. the traversal input
`/uploads/../../etc/passwd`); a failure of canonicalization makes the guard
answer "not contained" (fail closed); and the batch deleter never deletes a
file outside `UPLOADS_DIR`. -/
theorem c1_containment_safety :
    (∀ url p, local_upload_path_from_url url = some p →
      (resolvePath UPLOADS_DIR).segments.isPrefixOf (resolvePath p).segments = true)
  ∧ (∀ (canon : PyPath → Option PyPath) (q parent : PyPath),
      canon q = none ∨ canon parent = none → _is_subpath_fs canon q parent = false)
  ∧ (∀ url rest, pyStrip url = uploadsMarker ++ rest →
      _is_subpath (pathJoin UPLOADS_DIR (_strip_slashes rest)) UPLOADS_DIR = false →
      local_upload_path_from_url url = none)
  ∧ local_upload_path_from_url "/uploads/../../etc/passwd".toList = none
  ∧ (∀ (fail : PyPath → Bool) fs urls q, q ∈ fs → q ∉ (delete_run fail fs urls).fs →
      (resolvePath UPLOADS_DIR).segments.isPrefixOf (resolvePath q).segments = true) := by
  refine ⟨?_, ?_, ?_, by decide, ?_⟩
  · intro url p h
    exact resolver_some_subpath url p h
  · intro canon q parent h
    unfold _is_subpath_fs
    rcases h with h | h
    · rw [h]
    · rw [h]
      cases canon q <;> rfl
  · intro url rest h hguard
    rw [resolver_rel url rest h]
    simp [guardedJoin, hguard]
  · intro fail fs urls q hq hnot
    exact run_deleted_subpath fail (uniqueUrls urls) ⟨fs, [], []⟩ q hq hnot

theorem c1_containment_safety_witness :
    (resolvePath UPLOADS_DIR).segments.isPrefixOf
      (resolvePath (pathJoin UPLOADS_DIR "a.png".toList)).segments = true :=
  c1_containment_safety.1 "/uploads/a.png".toList (pathJoin UPLOADS_DIR "a.png".toList)
    (by decide)

/-- C2: for every input list (including non-string elements), every element of
the returned `removed` list also occurs in the returned `candidates` list. -/
theorem c2_removed_subset_candidates (fail : PyPath → Bool) (fs : List PyPath)
    (urls : List PyObj) :
    ∀ x, x ∈ (delete_local_uploads fail fs urls).1 →
      x ∈ (delete_local_uploads fail fs urls).2 := by
  intro x hx
  have hsub := run_removed_subset fail (uniqueUrls urls) ⟨fs, [], []⟩
    (fun a ha => absurd ha (List.not_mem_nil a))
  have hx' : x ∈ (((uniqueUrls urls).foldl (deleteStep fail) ⟨fs, [], []⟩).removedP.map pathStr) :=
    hx
  show x ∈ (((uniqueUrls urls).foldl (deleteStep fail) ⟨fs, [], []⟩).candidatesP.map pathStr)
  exact List.map_subset pathStr hsub hx'

theorem c2_removed_subset_candidates_witness :
    pathStr (pathJoin UPLOADS_DIR "a.jpg".toList) ∈
      (delete_local_uploads (fun _ => false) [pathJoin UPLOADS_DIR "a.jpg".toList]
        [PyObj.str "/uploads/a.jpg".toList]).2 :=
  c2_removed_subset_candidates (fun _ => false) [pathJoin UPLOADS_DIR "a.jpg".toList]
    [PyObj.str "/uploads/a.jpg".toList] (pathStr (pathJoin UPLOADS_DIR "a.jpg".toList))
    (by decide)

/-- C3: both public operations are total and absorb all errors: the resolver
returns `None` for non-strings, the empty string, `data:` URIs,
external-domain URLs, and inputs on which URL parsing raises (the exception
is caught); the batch deleter's `candidates` do not depend on the filesystem
or on which unlinks fail (the batch always continues), and a path whose
unlink fails is omitted from `removed`. -/
theorem c3_totality_and_absorption :
    (∀ t, local_upload_path_from_url_obj (PyObj.other t) = none)
  ∧ local_upload_path_from_url [] = none
  ∧ local_upload_path_from_url "data:image/png;base64,xx".toList = none
  ∧ local_upload_path_from_url "https://external.com/c.jpg".toList = none
  ∧ local_upload_path_from_url "http://[::1/uploads/a.jpg".toList = none
  ∧ (∀ url, urlparseOk (pyStrip url) = false →
      uploadsMarker.isPrefixOf (pyStrip url) = false →
      local_upload_path_from_url url = none)
  ∧ (∀ (fail fail' : PyPath → Bool) fs fs' urls,
      (delete_local_uploads fail fs urls).2 = (delete_local_uploads fail' fs' urls).2)
  ∧ (∀ (fail : PyPath → Bool) fs urls p,
      p ∈ (delete_run fail fs urls).removedP → fail p = false) := by
  refine ⟨fun t => rfl, rfl, by decide, by decide, by decide, ?_, ?_, ?_⟩
  · intro url hpar hpre
    apply resolver_none_of_miss url hpre
    unfold parsedPathHit
    unfold urlparseOk at hpar
    cases hp : urlparse (pyStrip url) with
    | error e => rfl
    | ok uu =>
      rw [hp] at hpar
      cases hpar
  · intro fail fail' fs fs' urls
    show (((uniqueUrls urls).foldl (deleteStep fail) ⟨fs, [], []⟩).candidatesP.map pathStr) =
      (((uniqueUrls urls).foldl (deleteStep fail') ⟨fs', [], []⟩).candidatesP.map pathStr)
    rw [run_candidates_congr fail fail' (uniqueUrls urls) ⟨fs, [], []⟩ ⟨fs', [], []⟩ rfl]
  · intro fail fs urls p hp
    exact (run_removed_inv fail (uniqueUrls urls) ⟨fs, [], []⟩
      (fun q hq => absurd hq (List.not_mem_nil q)) p hp).1

theorem c3_totality_and_absorption_witness :
    local_upload_path_from_url "http://[::1/x".toList = none :=
  c3_totality_and_absorption.2.2.2.2.2.1 "http://[::1/x".toList (by decide) (by decide)

/-- C4: running the batch delete twice on the same input list, with the
filesystem and failure behaviour unchanged in between, yields an empty
`removed` on the second call, and identical `candidates` on both calls. -/
theorem c4_idempotent (fail : PyPath → Bool) (fs : List PyPath) (urls : List PyObj) :
    (delete_local_uploads fail (delete_run fail fs urls).fs urls).1 = []
  ∧ (delete_local_uploads fail (delete_run fail fs urls).fs urls).2 =
      (delete_local_uploads fail fs urls).2 := by
  have key : ∀ u ∈ uniqueUrls urls, ∀ p, local_upload_path_from_url u = some p →
      fail p = true ∨
        p ∉ (RunState.mk (delete_run fail fs urls).fs [] []).fs := by
    intro u hu p hp
    cases hf : fail p with
    | true => exact Or.inl rfl
    | false =>
      exact Or.inr (run_processed_gone fail (uniqueUrls urls) ⟨fs, [], []⟩ u p hu hp hf)
  have h2 := run_noop fail (uniqueUrls urls) ⟨(delete_run fail fs urls).fs, [], []⟩ key
  constructor
  · show (((uniqueUrls urls).foldl (deleteStep fail)
      ⟨(delete_run fail fs urls).fs, [], []⟩).removedP.map pathStr) = []
    rw [h2.2]
    rfl
  · show (((uniqueUrls urls).foldl (deleteStep fail)
      ⟨(delete_run fail fs urls).fs, [], []⟩).candidatesP.map pathStr) =
      (((uniqueUrls urls).foldl (deleteStep fail) ⟨fs, [], []⟩).candidatesP.map pathStr)
    rw [run_candidates_congr fail fail (uniqueUrls urls)
      ⟨(delete_run fail fs urls).fs, [], []⟩ ⟨fs, [], []⟩ rfl]

/-- C5: a trimmed input of the form `/uploads/<rest>` resolves to
`UPLOADS_DIR/<rest>` whenever `<rest>` contains no traversal segments (first
conjunct: no `..` segments at all; second conjunct: exactly when the joined
candidate stays under the root); resolving `/uploads/a/b.png` yields a path
whose last two segments are `a` and `b.png`. -/
theorem c5_relative_resolution (url rest : Str)
    (h : pyStrip url = uploadsMarker ++ rest) :
    (['.', '.'] ∉ splitSegments (_strip_slashes rest) →
      local_upload_path_from_url url = some (pathJoin UPLOADS_DIR (_strip_slashes rest)))
  ∧ (_is_subpath (pathJoin UPLOADS_DIR (_strip_slashes rest)) UPLOADS_DIR = true →
      local_upload_path_from_url url = some (pathJoin UPLOADS_DIR (_strip_slashes rest)))
  ∧ (local_upload_path_from_url "/uploads/a/b.png".toList).map
      (fun p => p.segments.reverse.take 2) = some ["b.png".toList, "a".toList] := by
  refine ⟨?_, ?_, by decide⟩
  · intro hd
    rw [resolver_rel url rest h, guardedJoin_of_no_dotdot rest hd, pathJoin_strip]
  · intro hg
    rw [resolver_rel url rest h]
    unfold guardedJoin
    dsimp only
    rw [if_pos hg]

theorem c5_relative_resolution_witness :
    (['.', '.'] ∉ splitSegments (_strip_slashes "a/b.png".toList) →
      local_upload_path_from_url "/uploads/a/b.png".toList =
        some (pathJoin UPLOADS_DIR (_strip_slashes "a/b.png".toList)))
  ∧ (_is_subpath (pathJoin UPLOADS_DIR (_strip_slashes "a/b.png".toList)) UPLOADS_DIR = true →
      local_upload_path_from_url "/uploads/a/b.png".toList =
        some (pathJoin UPLOADS_DIR (_strip_slashes "a/b.png".toList)))
  ∧ (local_upload_path_from_url "/uploads/a/b.png".toList).map
      (fun p => p.segments.reverse.take 2) = some ["b.png".toList, "a".toList] :=
  c5_relative_resolution "/uploads/a/b.png".toList "a/b.png".toList (by decide)

/-- C6: whenever the trimmed input does not start with `/uploads/` and the
URL-parsed path component (after backslash normalization) does not start with
`/uploads/` either (in particular when parsing raises), the resolver returns
`None`. -/
theorem c6_non_uploads_absent (url : Str)
    (h1 : uploadsMarker.isPrefixOf (pyStrip url) = false)
    (h2 : parsedPathHit (pyStrip url) = false) :
    local_upload_path_from_url url = none :=
  resolver_none_of_miss url h1 h2

theorem c6_non_uploads_absent_witness :
    local_upload_path_from_url "https://example.com/img/x.png".toList = none :=
  c6_non_uploads_absent "https://example.com/img/x.png".toList (by decide) (by decide)

/-- C7: every successfully resolved path of a processed input URL is appended
to `candidates` (in its string form) even when the file does not exist; in
particular `["/uploads/missing.jpg"]` over an empty filesystem yields
`removed = []` and `candidates = [UPLOADS_DIR/missing.jpg]`. -/
theorem c7_candidates_unconditional (fail : PyPath → Bool) (fs : List PyPath)
    (urls : List PyObj) (u : Str) (p : PyPath)
    (hu : PyObj.str u ∈ urls) (hne : pyStrip u ≠ [])
    (hres : local_upload_path_from_url u = some p) :
    pathStr p ∈ (delete_local_uploads fail fs urls).2
  ∧ delete_local_uploads (fun _ => false) [] [PyObj.str "/uploads/missing.jpg".toList] =
      ([], [pathStr (pathJoin UPLOADS_DIR "missing.jpg".toList)]) := by
  constructor
  · have hmem := run_candidates_mem fail (uniqueUrls urls) ⟨fs, [], []⟩ u p
      ((mem_uniqueUrls urls u).mpr ⟨hu, hne⟩) hres
    show pathStr p ∈ (((uniqueUrls urls).foldl (deleteStep fail) ⟨fs, [], []⟩).candidatesP.map pathStr)
    exact List.mem_map_of_mem pathStr hmem
  · decide

theorem c7_candidates_unconditional_witness :
    pathStr (pathJoin UPLOADS_DIR "b.png".toList) ∈
      (delete_local_uploads (fun _ => false) [] [PyObj.str "/uploads/b.png".toList]).2
  ∧ delete_local_uploads (fun _ => false) [] [PyObj.str "/uploads/missing.jpg".toList] =
      ([], [pathStr (pathJoin UPLOADS_DIR "missing.jpg".toList)]) :=
  c7_candidates_unconditional (fun _ => false) [] [PyObj.str "/uploads/b.png".toList]
    "/uploads/b.png".toList (pathJoin UPLOADS_DIR "b.png".toList)
    (by decide) (by decide) (by decide)

/-- C8 counterexample: the claim that the returned lists never contain
duplicates is false — the two distinct input URLs `/uploads/a.jpg` and
`/uploads//a.jpg` survive deduplication, resolve to the same path, and
produce a `candidates` list with a duplicate entry. -/
theorem c8_counterexample :
    ¬ ((delete_local_uploads (fun _ => false) []
        [PyObj.str "/uploads/a.jpg".toList, PyObj.str "/uploads//a.jpg".toList]).2).Nodup := by
  decide

/-- C8 (amended): the input is deduplicated into the set of non-blank string
entries (non-strings and blank strings dropped), each unique URL is processed
once, and the returned `removed` list contains no duplicates; `candidates`,
however, may contain duplicates when distinct URLs resolve to the same path. -/
theorem c8_amended_dedup (fail : PyPath → Bool) (fs : List PyPath) (urls : List PyObj) :
    (uniqueUrls urls).Nodup
  ∧ (∀ x, x ∈ uniqueUrls urls ↔ PyObj.str x ∈ urls ∧ pyStrip x ≠ [])
  ∧ ((delete_local_uploads fail fs urls).1).Nodup :=
  ⟨uniqueUrls_nodup urls, mem_uniqueUrls urls, delete_removed_nodup fail fs urls⟩

/-- C9: an input whose trimmed form is `/uploads/` followed only by slash or
backslash characters resolves to `UPLOADS_DIR` itself (the empty remainder
joins to the root and the guard accepts equality), so the uploads directory
itself can appear as a deletion candidate. -/
theorem c9_root_itself (url extra : Str)
    (h : pyStrip url = uploadsMarker ++ extra)
    (hx : ∀ c ∈ extra, c = '/' ∨ c = '\\') :
    local_upload_path_from_url url = some UPLOADS_DIR
  ∧ (delete_local_uploads (fun _ => true) [UPLOADS_DIR] [PyObj.str "/uploads/".toList]).2 =
      [pathStr UPLOADS_DIR] := by
  constructor
  · rw [resolver_rel url extra h]
    have hstrip : _strip_slashes extra = [] := by
      unfold _strip_slashes
      rw [List.dropWhile_eq_nil_iff]
      intro c hc
      rcases hx c hc with h1 | h1 <;> simp [h1]
    rw [hstrip]
    decide
  · decide

theorem c9_root_itself_witness :
    local_upload_path_from_url "/uploads///".toList = some UPLOADS_DIR
  ∧ (delete_local_uploads (fun _ => true) [UPLOADS_DIR] [PyObj.str "/uploads/".toList]).2 =
      [pathStr UPLOADS_DIR] :=
  c9_root_itself "/uploads///".toList "//".toList (by decide) (by decide)

/-- C10: the `/uploads/` recognition is case-sensitive in both branches: an
input whose trimmed form starts with `/Uploads/` or `/UPLOADS/`, and whose
URL-parsed backslash-normalized path does not start with the exact lowercase
`/uploads/`, resolves to `None`. -/
theorem c10_case_sensitive (url : Str)
    (h1 : "/Uploads/".toList.isPrefixOf (pyStrip url) = true ∨
          "/UPLOADS/".toList.isPrefixOf (pyStrip url) = true)
    (h2 : parsedPathHit (pyStrip url) = false) :
    local_upload_path_from_url url = none := by
  have hpre : uploadsMarker.isPrefixOf (pyStrip url) = false := by
    cases hb : uploadsMarker.isPrefixOf (pyStrip url) with
    | false => rfl
    | true =>
      exfalso
      rcases h1 with h | h
      · exact cased_not_marker "/Uploads/".toList (pyStrip url) (by decide) (by decide) h hb
      · exact cased_not_marker "/UPLOADS/".toList (pyStrip url) (by decide) (by decide) h hb
  exact resolver_none_of_miss url hpre h2

theorem c10_case_sensitive_witness :
    local_upload_path_from_url "/Uploads/x.jpg".toList = none :=
  c10_case_sensitive "/Uploads/x.jpg".toList (Or.inl (by decide)) (by decide)

end Images
